import Mathlib

set_option maxRecDepth 8192

/-!
# Shallow embedding of `sms_query.py`

This file embeds the filter-classification, query-composition and
report-rendering logic of `sms_query.py` (a Python 2 script querying the
Nokia N900 rtcom-eventlogger database) and proves properties of it.

Python 2 byte strings are modelled as Lean `String`s restricted to the
operations the script uses; those operations (`lower`, `startswith`,
slicing, regular-expression matching via `re.match`) are embedded as
structural functions on the underlying character list:

* `str.lower()`          → `pyLower` (ASCII lowering, as in Python 2)
* `s.startswith(p)`      → `pyStartsWith s p` (`p.data.isPrefixOf s.data`)
* `s[n:]`                → `pyDrop s n` (drop the first `n` characters)
* `re.match(pat, s)`     → a per-pattern boolean recogniser.  The script's
  patterns all end in `$`; in Python `$` matches at the end of the string
  *or just before a trailing newline*, and `re.match` anchors at the start,
  so each recogniser accepts exactly: (core pattern matches all of `s`), or
  (`s` ends in one `'\n'` and the core pattern matches all of `s` minus it).

Python `set`s are modelled as insertion-ordered duplicate-free lists
(membership and extensional content are what the script observes).
`assert` statements are modelled by returning `Option`/`none` (an
`AssertionError` aborts the invocation).
-/

namespace SmsQuery

/-! ## Embedded Python string primitives -/

/-- Python 2 `s.lower()` on byte strings: lower-case each ASCII letter.
(Equivalent to `String.toLower`, but defined structurally on the
character list so that terms reduce.) -/
def pyLower (s : String) : String :=
  ⟨s.data.map Char.toLower⟩

/-- Python 2 `s.startswith(p)` on byte strings: `p` is a prefix of `s`. -/
def pyStartsWith (s p : String) : Bool :=
  p.data.isPrefixOf s.data

/-- Python 2 slice `s[n:]`: drop the first `n` characters. -/
def pyDrop (s : String) (n : Nat) : String :=
  ⟨s.data.drop n⟩

/-- Python `"sep".join(l)`. -/
def pyJoin (sep : String) : List String → String
  | [] => ""
  | [x] => x
  | x :: rest => x ++ sep ++ pyJoin sep rest

/-! ## Constants (from the script header) -/

/-- `CountryPrefix = "+47"` — default phone number country prefix. -/
def CountryPrefix : String := "+47"

/-- `AnsiColors` dictionary from the script. -/
def AnsiColors : List (String × String) :=
  [("red", "\x1b[91m"),
   ("green", "\x1b[92m"),
   ("yellow", "\x1b[93m"),
   ("blue", "\x1b[94m"),
   ("magenta", "\x1b[95m"),
   ("stop", "\x1b[0m")]

/-- `colorize(color, s)`; the keys used by the script are always present
in `AnsiColors`, so the `getD ""` default is never taken. -/
def colorize (color s : String) : String :=
  (AnsiColors.lookup color).getD "" ++ s ++ (AnsiColors.lookup "stop").getD ""

/-! ## Recognition patterns (the filters' `ArgRe`, under `re.match`)

Each `argRe…` function embeds `re.match(ArgRe, arg) is not None`. -/

/-- The strings matched (in full, case-insensitively) by the group
`(calls?|missed|sms)` of `EventTypeFilter.ArgRe`. -/
def eventTypeKeywords : List String := ["call", "calls", "missed", "sms"]

/-- `re.match("(calls?|missed|sms)$", arg, re.IGNORECASE)`:
the lowered argument is a keyword, optionally followed by one trailing
newline (Python `$` also matches just before a final `'\n'`). -/
def argReEventType (arg : String) : Bool :=
  let t := pyLower arg
  eventTypeKeywords.contains t ||
    (t.data.getLast? == some (Char.ofNat 10) &&
      eventTypeKeywords.contains ⟨t.data.dropLast⟩)

/-- The strings matched in full by the group `(in(coming)?|out(going)?)`. -/
def directionKeywords : List String := ["in", "incoming", "out", "outgoing"]

/-- `re.match("(in(coming)?|out(going)?)$", arg, re.IGNORECASE)`. -/
def argReDirection (arg : String) : Bool :=
  let t := pyLower arg
  directionKeywords.contains t ||
    (t.data.getLast? == some (Char.ofNat 10) &&
      directionKeywords.contains ⟨t.data.dropLast⟩)

/-- The core of `PhoneNumberFilter.ArgRe`, `\+?\d+`, matched against a whole
character list: an optional leading `'+'`, then one or more ASCII digits. -/
def isPhoneCore : List Char → Bool
  | [] => false
  | c :: rest =>
    if c == '+' then !rest.isEmpty && rest.all Char.isDigit
    else (c :: rest).all Char.isDigit

/-- `re.match("\+?\d+$", arg)`. -/
def argRePhoneNumber (arg : String) : Bool :=
  isPhoneCore arg.data ||
    (arg.data.getLast? == some (Char.ofNat 10) && isPhoneCore arg.data.dropLast)

/-- `re.match(".*", arg)` — always succeeds (`.*` matches the empty string
at position 0), so the name filter recognises every token. -/
def argReName (_ : String) : Bool := true

/-! ## Filter accumulation (`add` methods)

A Python `set` is modelled as an insertion-ordered duplicate-free list;
`set.add` is insert-if-absent. `assert` failures are `none`. -/

/-- `set.add` on the list model of a Python set. -/
def setAdd (s : List String) (x : String) : List String :=
  if s.contains x then s else s ++ [x]

/-- `EventTypeFilter.add`: lower the argument, map `"calls"` to `"call"`,
assert membership in the closed keyword set, then `set.add`. -/
def eventTypeAdd (given : List String) (arg : String) : Option (List String) :=
  let a := pyLower arg
  let a := if a == "calls" then "call" else a
  if a == "call" || a == "missed" || a == "sms" then
    some (setAdd given a)
  else
    none

/-- `DirectionFilter.add`: lower, normalise `incoming`/`outgoing`, assert
membership in `{"in", "out"}`, then `set.add`. -/
def directionAdd (given : List String) (arg : String) : Option (List String) :=
  let a := pyLower arg
  let a := if a == "incoming" then "in" else if a == "outgoing" then "out" else a
  if a == "in" || a == "out" then
    some (setAdd given a)
  else
    none

/-- The complementary form appended by `PhoneNumberFilter.add`: strip the
country prefix when present, otherwise prepend it. -/
def phoneComplement (p : String) : String :=
  if pyStartsWith p CountryPrefix then pyDrop p CountryPrefix.data.length
  else CountryPrefix ++ p

/-- `PhoneNumberFilter.add`: append the number and its complementary form
to the (duplicate-tolerant) list `nums`. -/
def phoneNumberAdd (nums : List String) (p : String) : List String :=
  nums ++ [p, phoneComplement p]

/-- `NameFilter.add`: insert the lowered term into the set of terms. -/
def nameAdd (terms : List String) (t : String) : List String :=
  setAdd terms (pyLower t)

/-! ## Filter rendering (`sql` and `args` methods) -/

/-- `EventTypeFilter.sql`: one equality disjunct per present keyword,
in the fixed order call, missed, sms; `assert clauses` is `none` on empty. -/
def eventTypeSql (given : List String) : Option String :=
  let clauses :=
    (if given.contains "call" then
      ["EventTypes.name = \"RTCOM_EL_EVENTTYPE_CALL\""] else []) ++
    (if given.contains "missed" then
      ["EventTypes.name = \"RTCOM_EL_EVENTTYPE_CALL_MISSED\""] else []) ++
    (if given.contains "sms" then
      ["EventTypes.name = \"RTCOM_EL_EVENTTYPE_SMS_MESSAGE\""] else [])
  if clauses.isEmpty then none
  else some ("(" ++ pyJoin " OR " clauses ++ ")")

/-- `EventTypeFilter.args`: always empty. -/
def eventTypeArgs (_ : List String) : List String := []

/-- `DirectionFilter.sql`. -/
def directionSql (given : List String) : Option String :=
  let clauses :=
    (if given.contains "in" then ["Events.outgoing = 0"] else []) ++
    (if given.contains "out" then ["Events.outgoing = 1"] else [])
  if clauses.isEmpty then none
  else some ("(" ++ pyJoin " OR " clauses ++ ")")

/-- `DirectionFilter.args`: always empty. -/
def directionArgs (_ : List String) : List String := []

/-- `PhoneNumberFilter.sql`: one placeholder disjunct per stored number. -/
def phoneNumberSql (nums : List String) : Option String :=
  if nums.isEmpty then none
  else some ("(" ++ pyJoin " OR " (nums.map fun _ => "Events.remote_uid = ?") ++ ")")

/-- `PhoneNumberFilter.args`: the stored numbers themselves. -/
def phoneNumberArgs (nums : List String) : List String := nums

/-- `NameFilter.sql`: one `LIKE` placeholder disjunct per stored term. -/
def nameSql (terms : List String) : Option String :=
  if terms.isEmpty then none
  else some ("(" ++ pyJoin " OR " (terms.map fun _ => "Remotes.remote_name LIKE ?") ++ ")")

/-- `NameFilter.args`: each term wrapped in `%` wildcards. -/
def nameArgs (terms : List String) : List String :=
  terms.map fun t => "%" ++ t ++ "%"

/-- One concrete filter instance together with its accumulated state
(the closed set of the four `Filter` subclasses used by `main`). -/
inductive FilterInst where
  | eventType (given : List String)
  | direction (given : List String)
  | phoneNumber (nums : List String)
  | name (terms : List String)
deriving DecidableEq

/-- Dispatch `f.sql()` over the four concrete filter classes. -/
def FilterInst.sql : FilterInst → Option String
  | .eventType g => eventTypeSql g
  | .direction g => directionSql g
  | .phoneNumber ns => phoneNumberSql ns
  | .name ts => nameSql ts

/-- Dispatch `f.args()` over the four concrete filter classes. -/
def FilterInst.args : FilterInst → List String
  | .eventType g => eventTypeArgs g
  | .direction g => directionArgs g
  | .phoneNumber ns => phoneNumberArgs ns
  | .name ts => nameArgs ts

/-! ## Argument classifier (`main`'s token loop) -/

/-- The four filter variants, in the order of `FilterClasses`. -/
inductive Variant where
  | eventType
  | direction
  | phoneNumber
  | name
deriving DecidableEq

/-- The recognition pattern of each variant. -/
def Variant.recognize : Variant → String → Bool
  | .eventType => argReEventType
  | .direction => argReDirection
  | .phoneNumber => argRePhoneNumber
  | .name => argReName

/-- `FilterClasses` order. -/
def variantOrder : List Variant :=
  [.eventType, .direction, .phoneNumber, .name]

/-- The classifier's `filters` dictionary: at most one instance per
variant, `none` when the variant was never instantiated. -/
structure Filters where
  eventType : Option (List String)
  direction : Option (List String)
  phoneNumber : Option (List String)
  name : Option (List String)
deriving DecidableEq

/-- The empty `filters` dictionary. -/
def initFilters : Filters := ⟨none, none, none, none⟩

/-- One iteration of `main`'s argument loop: try each variant's `ArgRe`
in `FilterClasses` order; on the first match, `setdefault` the instance
(fresh state for a new instance) and `add` the argument, then `break`.
A failing `assert` in `add` aborts (`none`).  The final `some st` branch
is the (unreachable) fall-through where no variant matches. -/
def classify1 (st : Filters) (arg : String) : Option Filters :=
  if argReEventType arg then
    (eventTypeAdd (st.eventType.getD []) arg).map fun g => { st with eventType := some g }
  else if argReDirection arg then
    (directionAdd (st.direction.getD []) arg).map fun g => { st with direction := some g }
  else if argRePhoneNumber arg then
    some { st with phoneNumber := some (phoneNumberAdd (st.phoneNumber.getD []) arg) }
  else if argReName arg then
    some { st with name := some (nameAdd (st.name.getD []) arg) }
  else
    some st

/-- Classify a whole token sequence (the script's `args[1:]`). -/
def classify (toks : List String) : Option Filters :=
  toks.foldlM classify1 initFilters

/-! ## Query composer (`main`'s SQL assembly) -/

/-- The fixed part of the SQL statement before the `%s` interpolation. -/
def baseQueryPrefix : String :=
  "SELECT\tEventTypes.name,\n\tEvents.storage_time,\n\tEvents.outgoing,\n\tEvents.remote_uid,\n\tRemotes.remote_name,\n\tEvents.free_text\nFROM EventTypes, Remotes, Events\nWHERE Events.event_type_id = EventTypes.id\n  AND Events.local_uid = Remotes.local_uid\n  AND Events.remote_uid = Remotes.remote_uid\n"

/-- The fixed part of the SQL statement after the `%s` interpolation. -/
def baseQuerySuffix : String := "\nORDER BY Events.id\n"

/-- `"".join([" AND " + f for f in filter_clauses])` interpolated into the
base query. -/
def composedQuery (clauses : List String) : String :=
  baseQueryPrefix ++ pyJoin "" (clauses.map fun f => " AND " ++ f) ++ baseQuerySuffix

/-- The clauses of a sequence of filter instances, in iteration order;
`none` if any filter's `sql()` assertion fails. -/
def clausesOf (fs : List FilterInst) : Option (List String) :=
  fs.mapM FilterInst.sql

/-- `filter_args`: the flattened parameter list, extended per filter in
the same iteration order as the clauses. -/
def flatArgs (fs : List FilterInst) : List String :=
  (fs.map FilterInst.args).flatten

/-- Number of `'?'` placeholders in a string. -/
def countQ (s : String) : Nat :=
  s.data.count '?'

/-! ## Report renderer (`main`'s row loop) -/

/-- Python truthiness of a nullable string column (`None` and `""` are
falsy). -/
def textTruthy : Option String → Bool
  | none => false
  | some s => !s.isEmpty

/-- The renderer's per-row content substitution: `main`'s dispatch on
`event_type`.  The `assert not text` statements are modelled by `none`
(an `AssertionError` aborts the invocation before the row is printed). -/
def renderContent (event_type : String) (text : Option String) : Option String :=
  if event_type == "RTCOM_EL_EVENTTYPE_CALL" then
    if textTruthy text then none
    else some (colorize "green" "<Voice call>")
  else if event_type == "RTCOM_EL_EVENTTYPE_CALL_MISSED" then
    if textTruthy text then none
    else some (colorize "yellow" "<Missed voice call>")
  else if event_type == "RTCOM_EL_EVENTTYPE_SMS_MESSAGE" then
    if textTruthy text then some (text.getD "")
    else some (colorize "red" "<No contents>")
  else
    some (colorize "red" ("<Unknown event type: " ++ event_type ++ ">" ++ text.getD ""))

/-- `numcolors`, the five-colour palette. -/
def numcolors : List String := ["red", "yellow", "green", "blue", "magenta"]

/-- `num2color.setdefault(phonenum, numcolors[len(num2color) % len(numcolors)])`:
the colour-assignment table as an insertion-ordered association list. -/
def colorStep (m : List (String × String)) (num : String) : List (String × String) :=
  match m.lookup num with
  | some _ => m
  | none => m ++ [(num, numcolors.getD (m.length % numcolors.length) "")]

/-- The colour-assignment table after processing the given rows'
remote identifiers in order, starting from the empty table. -/
def colorFold (rows : List String) : List (String × String) :=
  rows.foldl colorStep []

/-! ## Derived notions used by the statements -/

/-- The variant a token is routed to: the first variant (in
`FilterClasses` order) whose `ArgRe` matches.  Total, because the name
filter's pattern matches every token. -/
def route (arg : String) : Variant :=
  if argReEventType arg then .eventType
  else if argReDirection arg then .direction
  else if argRePhoneNumber arg then .phoneNumber
  else .name

/-- The `filters` dictionary entry of a variant. -/
def fieldOf (st : Filters) : Variant → Option (List String)
  | .eventType => st.eventType
  | .direction => st.direction
  | .phoneNumber => st.phoneNumber
  | .name => st.name

/-- Each variant's `add` method (total variants wrapped in `some`). -/
def addOf : Variant → List String → String → Option (List String)
  | .eventType => eventTypeAdd
  | .direction => directionAdd
  | .phoneNumber => fun ns a => some (phoneNumberAdd ns a)
  | .name => fun ts a => some (nameAdd ts a)

/-- Whether the `add` of the routed variant accepts the token (its
`assert` does not fire); for event-type and direction this depends only
on the token, the other two variants always accept. -/
def addOk (arg : String) : Bool :=
  match route arg with
  | .eventType => (eventTypeAdd [] arg).isSome
  | .direction => (directionAdd [] arg).isSome
  | .phoneNumber => true
  | .name => true

/-- The total classification step (defined on the success path;
`classify1` returns `some (stepT st arg)` whenever `addOk arg`). -/
def stepT (st : Filters) (arg : String) : Filters :=
  (classify1 st arg).getD st

/-- The filter instances held by the `filters` dictionary.  Python 2 dict
iteration order is unspecified; composition theorems therefore quantify
over arbitrary instance sequences, and this definition fixes the
declaration order for concrete statements. -/
def activeFilters (st : Filters) : List FilterInst :=
  (st.eventType.map FilterInst.eventType).toList ++
  (st.direction.map FilterInst.direction).toList ++
  (st.phoneNumber.map FilterInst.phoneNumber).toList ++
  (st.name.map FilterInst.name).toList

/-- Folding a filter's `add` from a fresh event-type instance. -/
def eventTypeAccum (toks : List String) : Option (List String) :=
  toks.foldlM eventTypeAdd []

/-- Folding `add` from a fresh direction instance. -/
def directionAccum (toks : List String) : Option (List String) :=
  toks.foldlM directionAdd []

/-- Folding `add` from a fresh phone-number instance. -/
def phoneNumberAccum (toks : List String) : List String :=
  toks.foldl phoneNumberAdd []

/-- Folding `add` from a fresh name instance. -/
def nameAccum (toks : List String) : List String :=
  toks.foldl nameAdd []

/-- A filter instance whose state was produced by accumulating at least
one token (the classifier only ever queries such instances). -/
def Accumulated : FilterInst → Prop
  | .eventType g => ∃ toks, toks ≠ [] ∧ eventTypeAccum toks = some g
  | .direction g => ∃ toks, toks ≠ [] ∧ directionAccum toks = some g
  | .phoneNumber ns => ∃ toks, toks ≠ [] ∧ phoneNumberAccum toks = ns
  | .name ts => ∃ toks, toks ≠ [] ∧ nameAccum toks = ts

/-- The normalised value the event-type filter stores for a token. -/
def eventNorm (arg : String) : String :=
  let a := pyLower arg
  if a == "calls" then "call" else a

/-- The normalised value the direction filter stores for a token. -/
def dirNorm (arg : String) : String :=
  let a := pyLower arg
  if a == "incoming" then "in" else if a == "outgoing" then "out" else a

/-- The values one token contributes to its routed variant's state. -/
def tokenImage (v : Variant) (arg : String) : List String :=
  match v with
  | .eventType => [eventNorm arg]
  | .direction => [dirNorm arg]
  | .phoneNumber => [arg, phoneComplement arg]
  | .name => [pyLower arg]

/-- The tokens of a sequence routed to a given variant. -/
def tokensFor (v : Variant) (toks : List String) : List String :=
  toks.filter fun a => route a == v

/-- The total state transformer of each variant's `add` on the success
path (event-kind and direction `add`s fail exactly when `addOk` is
false). -/
def fAdd : Variant → List String → String → List String
  | .eventType => fun g a => setAdd g (eventNorm a)
  | .direction => fun g a => setAdd g (dirNorm a)
  | .phoneNumber => phoneNumberAdd
  | .name => nameAdd

/-- The semantics of a filter's accumulated state: the set of values its
predicate disjuncts range over (duplicate disjuncts and storage order do
not change the predicate's meaning). -/
structure FiltersSem where
  eventType : Option (Finset String)
  direction : Option (Finset String)
  phoneNumber : Option (Finset String)
  name : Option (Finset String)
deriving DecidableEq

/-- Project a classifier state to its predicate semantics. -/
def Filters.sem (st : Filters) : FiltersSem :=
  ⟨st.eventType.map List.toFinset, st.direction.map List.toFinset,
   st.phoneNumber.map List.toFinset, st.name.map List.toFinset⟩

/-- The predicate semantics one variant ends up with, computed from the
tokens routed to it. -/
def semFieldSpec (v : Variant) (toks : List String) : Option (Finset String) :=
  if (tokensFor v toks).isEmpty then none
  else some ((tokensFor v toks).flatMap (tokenImage v)).toFinset

/-- The classifier-state semantics determined by a token sequence. -/
def classifySpec (toks : List String) : FiltersSem :=
  ⟨semFieldSpec .eventType toks, semFieldSpec .direction toks,
   semFieldSpec .phoneNumber toks, semFieldSpec .name toks⟩

/-- Model of SQLite `LIKE` on non-NULL text (ASCII case-insensitive):
`%` matches any character sequence, `_` any single character, any other
pattern character matches itself up to case. -/
def likeChars : List Char → List Char → Bool
  | [], [] => true
  | [], _ :: _ => false
  | '%' :: ps, [] => likeChars ps []
  | '%' :: ps, c :: s => likeChars ps (c :: s) || likeChars ('%' :: ps) s
  | '_' :: ps, _ :: s => likeChars ps s
  | p :: ps, c :: s => (p.toLower == c.toLower) && likeChars ps s
  | _ :: _, [] => false
termination_by ps s => ps.length + s.length
decreasing_by all_goals simp_arith

/-- `column LIKE pattern` for a nullable column: a NULL column never
satisfies the predicate (SQL three-valued logic). -/
def likeMatch (pat : String) : Option String → Bool
  | none => false
  | some s => likeChars pat.data s.data

/-- The colour table the renderer builds for a given duplicate-free list
of identifiers in first-seen order: the `i`-th identifier gets palette
colour `i mod 5`. -/
def paletteAssign : Nat → List String → List (String × String)
  | _, [] => []
  | i, n :: rest =>
    (n, numcolors.getD (i % numcolors.length) "") :: paletteAssign (i + 1) rest

/-! ## Helper lemmas -/

theorem likeChars_single_percent (s : List Char) : likeChars ['%'] s = true := by
  induction s with
  | nil => simp [likeChars]
  | cons c s ih => simp [likeChars, ih]

theorem likeChars_double_percent (s : List Char) : likeChars ['%', '%'] s = true := by
  cases s with
  | nil => simp [likeChars]
  | cons c s => simp [likeChars, likeChars_single_percent]

theorem countQ_append (a b : String) : countQ (a ++ b) = countQ a + countQ b := by
  simp [countQ, String.data_append, List.count_append]

theorem sum_map_one (l : List String) : (l.map fun _ => (1 : Nat)).sum = l.length := by
  induction l with
  | nil => rfl
  | cons a l ih => simp [ih, Nat.add_comm]

theorem countQ_pyJoin (sep : String) (hsep : countQ sep = 0) (l : List String) :
    countQ (pyJoin sep l) = (l.map countQ).sum := by
  induction l with
  | nil => simp [pyJoin, countQ]
  | cons x rest ih =>
    cases rest with
    | nil => simp [pyJoin]
    | cons y rest2 =>
      rw [show pyJoin sep (x :: y :: rest2) = x ++ sep ++ pyJoin sep (y :: rest2) from rfl,
        countQ_append, countQ_append, ih, hsep]
      simp

theorem setAdd_ne_nil (s : List String) (x : String) : setAdd s x ≠ [] := by
  unfold setAdd
  split
  · cases s with
    | nil => simp_all [List.contains]
    | cons a s => simp
  · simp

theorem mem_setAdd {s : List String} {x y : String} (h : y ∈ setAdd s x) :
    y = x ∨ y ∈ s := by
  unfold setAdd at h
  split at h
  · exact Or.inr h
  · rcases List.mem_append.1 h with h | h
    · exact Or.inr h
    · exact Or.inl (List.mem_singleton.1 h)

/-- The values the event-type filter can store. -/
def EventKw (x : String) : Prop := x = "call" ∨ x = "missed" ∨ x = "sms"

theorem eventTypeAdd_eq (g : List String) (a : String) :
    eventTypeAdd g a =
      if eventNorm a == "call" || eventNorm a == "missed" || eventNorm a == "sms"
      then some (setAdd g (eventNorm a)) else none := rfl

theorem eventTypeAdd_some {g g' : List String} {a : String}
    (h : eventTypeAdd g a = some g') :
    ∃ x, EventKw x ∧ g' = setAdd g x := by
  rw [eventTypeAdd_eq] at h
  split at h
  · next hc =>
    refine ⟨_, ?_, (Option.some_inj.1 h).symm⟩
    rcases Bool.or_eq_true_iff.1 hc with hc | hc
    · rcases Bool.or_eq_true_iff.1 hc with hc | hc
      · exact Or.inl (eq_of_beq hc)
      · exact Or.inr (Or.inl (eq_of_beq hc))
    · exact Or.inr (Or.inr (eq_of_beq hc))
  · exact absurd h (by simp)

theorem eventTypeFold_inv (toks : List String) :
    ∀ g0, (∀ x ∈ g0, EventKw x) →
      ∀ g, toks.foldlM eventTypeAdd g0 = some g →
        (∀ x ∈ g, EventKw x) ∧ (g0 ≠ [] → g ≠ []) ∧ (toks ≠ [] → g ≠ []) := by
  induction toks with
  | nil =>
    intro g0 h0 g hg
    simp only [List.foldlM_nil] at hg
    cases hg
    exact ⟨h0, fun h => h, fun h => absurd rfl h⟩
  | cons a toks ih =>
    intro g0 h0 g hg
    simp only [List.foldlM_cons] at hg
    rcases Option.bind_eq_some.1 hg with ⟨g1, h1, hrest⟩
    rcases eventTypeAdd_some h1 with ⟨x, hx, rfl⟩
    have h1kw : ∀ y ∈ setAdd g0 x, EventKw y := by
      intro y hy
      rcases mem_setAdd hy with rfl | hy
      · exact hx
      · exact h0 y hy
    rcases ih _ h1kw g hrest with ⟨hkw, hne, _⟩
    exact ⟨hkw, fun _ => hne (setAdd_ne_nil _ _), fun _ => hne (setAdd_ne_nil _ _)⟩

/-- The values the direction filter can store. -/
def DirKw (x : String) : Prop := x = "in" ∨ x = "out"

theorem directionAdd_eq (g : List String) (a : String) :
    directionAdd g a =
      if dirNorm a == "in" || dirNorm a == "out"
      then some (setAdd g (dirNorm a)) else none := rfl

theorem directionAdd_some {g g' : List String} {a : String}
    (h : directionAdd g a = some g') :
    ∃ x, DirKw x ∧ g' = setAdd g x := by
  rw [directionAdd_eq] at h
  split at h
  · next hc =>
    refine ⟨_, ?_, (Option.some_inj.1 h).symm⟩
    rcases Bool.or_eq_true_iff.1 hc with hc | hc
    · exact Or.inl (eq_of_beq hc)
    · exact Or.inr (eq_of_beq hc)
  · exact absurd h (by simp)

theorem directionFold_inv (toks : List String) :
    ∀ g0, (∀ x ∈ g0, DirKw x) →
      ∀ g, toks.foldlM directionAdd g0 = some g →
        (∀ x ∈ g, DirKw x) ∧ (g0 ≠ [] → g ≠ []) ∧ (toks ≠ [] → g ≠ []) := by
  induction toks with
  | nil =>
    intro g0 h0 g hg
    simp only [List.foldlM_nil] at hg
    cases hg
    exact ⟨h0, fun h => h, fun h => absurd rfl h⟩
  | cons a toks ih =>
    intro g0 h0 g hg
    simp only [List.foldlM_cons] at hg
    rcases Option.bind_eq_some.1 hg with ⟨g1, h1, hrest⟩
    rcases directionAdd_some h1 with ⟨x, hx, rfl⟩
    have h1kw : ∀ y ∈ setAdd g0 x, DirKw y := by
      intro y hy
      rcases mem_setAdd hy with rfl | hy
      · exact hx
      · exact h0 y hy
    rcases ih _ h1kw g hrest with ⟨hkw, hne, _⟩
    exact ⟨hkw, fun _ => hne (setAdd_ne_nil _ _), fun _ => hne (setAdd_ne_nil _ _)⟩

theorem nameFold_ne_nil (toks : List String) :
    ∀ s : List String, s ≠ [] ∨ toks ≠ [] → toks.foldl nameAdd s ≠ [] := by
  induction toks with
  | nil =>
    intro s hs
    rcases hs with hs | hs
    · simpa using hs
    · exact absurd rfl hs
  | cons a toks ih =>
    intro s _
    simp only [List.foldl_cons]
    exact ih (nameAdd s a) (Or.inl (setAdd_ne_nil _ _))

theorem phoneFold_ne_nil (toks : List String) :
    ∀ s : List String, s ≠ [] ∨ toks ≠ [] → toks.foldl phoneNumberAdd s ≠ [] := by
  induction toks with
  | nil =>
    intro s hs
    rcases hs with hs | hs
    · simpa using hs
    · exact absurd rfl hs
  | cons a toks ih =>
    intro s _
    simp only [List.foldl_cons]
    exact ih (phoneNumberAdd s a) (Or.inl (by simp [phoneNumberAdd]))

theorem eventTypeSql_of_kw {g : List String} (hne : g ≠ [])
    (hkw : ∀ x ∈ g, EventKw x) :
    ∃ q, eventTypeSql g = some q ∧ countQ q = 0 := by
  have hcontains : g.contains "call" = true ∨ g.contains "missed" = true ∨
      g.contains "sms" = true := by
    rcases List.exists_mem_of_ne_nil g hne with ⟨x, hx⟩
    rcases hkw x hx with rfl | rfl | rfl
    · exact Or.inl (List.elem_eq_true_of_mem hx)
    · exact Or.inr (Or.inl (List.elem_eq_true_of_mem hx))
    · exact Or.inr (Or.inr (List.elem_eq_true_of_mem hx))
  cases h1 : g.contains "call" <;> cases h2 : g.contains "missed" <;>
    cases h3 : g.contains "sms" <;>
    simp only [eventTypeSql, h1, h2, h3, Bool.false_eq_true, if_true, if_false] <;>
    first
      | exact ⟨_, rfl, by decide⟩
      | simp_all

theorem directionSql_of_kw {g : List String} (hne : g ≠ [])
    (hkw : ∀ x ∈ g, DirKw x) :
    ∃ q, directionSql g = some q ∧ countQ q = 0 := by
  have hcontains : g.contains "in" = true ∨ g.contains "out" = true := by
    rcases List.exists_mem_of_ne_nil g hne with ⟨x, hx⟩
    rcases hkw x hx with rfl | rfl
    · exact Or.inl (List.elem_eq_true_of_mem hx)
    · exact Or.inr (List.elem_eq_true_of_mem hx)
  cases h1 : g.contains "in" <;> cases h2 : g.contains "out" <;>
    simp only [directionSql, h1, h2, Bool.false_eq_true, if_true, if_false] <;>
    first
      | exact ⟨_, rfl, by decide⟩
      | simp_all

theorem phoneNumberSql_count {ns : List String} (hne : ns ≠ []) :
    ∃ q, phoneNumberSql ns = some q ∧ countQ q = ns.length := by
  have hempty : ns.isEmpty = false := by
    simpa [List.isEmpty_iff] using hne
  simp only [phoneNumberSql, hempty, Bool.false_eq_true, if_false]
  refine ⟨_, rfl, ?_⟩
  rw [countQ_append, countQ_append, countQ_pyJoin " OR " (by decide)]
  have h1 : countQ "(" = 0 := by decide
  have h2 : countQ ")" = 0 := by decide
  rw [h1, h2, List.map_map]
  have h3 : ns.map (countQ ∘ fun _ => "Events.remote_uid = ?") =
      ns.map fun _ => 1 :=
    List.map_congr_left fun a _ =>
      (by decide : countQ "Events.remote_uid = ?" = 1)
  rw [h3, sum_map_one]
  omega

theorem nameSql_count {ts : List String} (hne : ts ≠ []) :
    ∃ q, nameSql ts = some q ∧ countQ q = (nameArgs ts).length := by
  have hempty : ts.isEmpty = false := by
    simpa [List.isEmpty_iff] using hne
  simp only [nameSql, hempty, Bool.false_eq_true, if_false]
  refine ⟨_, rfl, ?_⟩
  rw [countQ_append, countQ_append, countQ_pyJoin " OR " (by decide)]
  have h1 : countQ "(" = 0 := by decide
  have h2 : countQ ")" = 0 := by decide
  rw [h1, h2, List.map_map]
  have h3 : ts.map (countQ ∘ fun _ => "Remotes.remote_name LIKE ?") =
      ts.map fun _ => 1 :=
    List.map_congr_left fun a _ =>
      (by decide : countQ "Remotes.remote_name LIKE ?" = 1)
  rw [h3, sum_map_one]
  simp [nameArgs]

/-- Core of C3 (shared with the composition claim): an accumulated
filter's `sql()` succeeds and its placeholder count equals its `args()`
length. -/
theorem accumulated_sql_alignment (f : FilterInst) (h : Accumulated f) :
    ∃ q, f.sql = some q ∧ countQ q = f.args.length := by
  cases f with
  | eventType g =>
    rcases h with ⟨toks, htoks, hacc⟩
    rcases eventTypeFold_inv toks [] (by simp) g hacc with ⟨hkw, _, hne⟩
    rcases eventTypeSql_of_kw (hne htoks) hkw with ⟨q, hq, hcount⟩
    exact ⟨q, hq, by simpa [FilterInst.args, eventTypeArgs] using hcount⟩
  | direction g =>
    rcases h with ⟨toks, htoks, hacc⟩
    rcases directionFold_inv toks [] (by simp) g hacc with ⟨hkw, _, hne⟩
    rcases directionSql_of_kw (hne htoks) hkw with ⟨q, hq, hcount⟩
    exact ⟨q, hq, by simpa [FilterInst.args, directionArgs] using hcount⟩
  | phoneNumber ns =>
    rcases h with ⟨toks, htoks, hacc⟩
    have hne : ns ≠ [] := by
      rw [← hacc]
      exact phoneFold_ne_nil toks [] (Or.inr htoks)
    rcases phoneNumberSql_count hne with ⟨q, hq, hcount⟩
    exact ⟨q, hq, by simpa [FilterInst.args, phoneNumberArgs] using hcount⟩
  | name ts =>
    rcases h with ⟨toks, htoks, hacc⟩
    have hne : ts ≠ [] := by
      rw [← hacc]
      exact nameFold_ne_nil toks [] (Or.inr htoks)
    rcases nameSql_count hne with ⟨q, hq, hcount⟩
    exact ⟨q, hq, hcount⟩

/-! ## Claims -/

/-- **C3**: for every filter variant and every non-empty accumulated
state (any accumulation size from 1 to N), the number of `?`
placeholders in the string returned by the filter's `sql()` equals the
length of the list returned by its `args()`. -/
theorem c3_placeholder_count_equals_args_length (f : FilterInst)
    (h : Accumulated f) :
    ∃ q, f.sql = some q ∧ countQ q = f.args.length :=
  accumulated_sql_alignment f h

theorem c3_placeholder_count_equals_args_length_witness :
    ∃ q, (FilterInst.phoneNumber ["12345678", "+4712345678"]).sql = some q ∧
      countQ q = (FilterInst.phoneNumber ["12345678", "+4712345678"]).args.length :=
  c3_placeholder_count_equals_args_length _
    (⟨["12345678"], by decide, by decide⟩ :
      Accumulated (FilterInst.phoneNumber ["12345678", "+4712345678"]))

theorem phone_tail_no_prefix {t : List Char}
    (h : t = [] ∨ ∃ c t2, t = c :: t2 ∧ c ≠ '+') :
    CountryPrefix.data.isPrefixOf t = false := by
  rcases h with rfl | ⟨c, t2, rfl, hc⟩
  · rfl
  · show List.isPrefixOf ['+', '4', '7'] (c :: t2) = false
    rw [List.isPrefixOf_cons₂]
    have : ('+' == c) = false := by
      cases hb : ('+' == c)
      · rfl
      · exact absurd (eq_of_beq hb).symm hc
    rw [this, Bool.false_and]

theorem phone_arg_tail_shape {p : String} (hp : argRePhoneNumber p = true)
    {t : List Char} (hdata : p.data = '+' :: '4' :: '7' :: t) :
    t = [] ∨ ∃ c t2, t = c :: t2 ∧ c ≠ '+' := by
  cases t with
  | nil => exact Or.inl rfl
  | cons c t2 =>
    refine Or.inr ⟨c, t2, rfl, ?_⟩
    have hdigit_ne : ∀ d : Char, d.isDigit = true → d ≠ '+' := by
      intro d hd heq
      rw [heq] at hd
      exact absurd hd (by decide)
    unfold argRePhoneNumber at hp
    rw [hdata] at hp
    rcases Bool.or_eq_true_iff.1 hp with h | h
    · simp only [isPhoneCore, beq_self_eq_true, if_true, List.isEmpty_cons,
        Bool.not_false, Bool.true_and, List.all_cons, Bool.and_eq_true] at h
      exact hdigit_ne c h.2.2.1
    · rcases Bool.and_eq_true_iff.1 h with ⟨hlast, hcore⟩
      cases t2 with
      | nil =>
        have : c = Char.ofNat 10 := by
          have := eq_of_beq hlast
          simpa using this
        subst this
        decide
      | cons d t3 =>
        have hdl : ('+' :: '4' :: '7' :: c :: d :: t3).dropLast =
            '+' :: '4' :: '7' :: c :: (d :: t3).dropLast := by
          simp [List.dropLast]
        rw [hdl] at hcore
        simp only [isPhoneCore, beq_self_eq_true, if_true, List.isEmpty_cons,
          Bool.not_false, Bool.true_and, List.all_cons, Bool.and_eq_true] at hcore
        exact hdigit_ne c hcore.2.2.1

/-- **C4**: every phone-number token accepted by the phone-number filter
is stored together with its complementary form (prefix stripped if
present, else prepended) as independent OR-disjuncts; and for a token
carrying the configured prefix, supplying it and supplying its
prefix-stripped form produce filters whose stored disjunct lists are
permutations of each other and whose rendered predicates coincide. -/
theorem c4_complement_forms_and_prefix_symmetry (p : String)
    (hp : argRePhoneNumber p = true) :
    (∀ ns, p ∈ phoneNumberAdd ns p ∧ phoneComplement p ∈ phoneNumberAdd ns p) ∧
    (pyStartsWith p CountryPrefix = true →
      (phoneNumberAdd [] p).Perm (phoneNumberAdd [] (phoneComplement p)) ∧
      phoneNumberSql (phoneNumberAdd [] p) =
        phoneNumberSql (phoneNumberAdd [] (phoneComplement p))) := by
  constructor
  · intro ns
    constructor <;> simp [phoneNumberAdd]
  · intro hstart
    have hpfx : CountryPrefix.data <+: p.data := List.isPrefixOf_iff_prefix.1 hstart
    rcases hpfx with ⟨t, ht⟩
    have hdata : p.data = '+' :: '4' :: '7' :: t := by
      rw [← ht]
      rfl
    have hdrop : (pyDrop p CountryPrefix.data.length).data = t := by
      simp [pyDrop, hdata, CountryPrefix]
    have hshape := phone_arg_tail_shape hp hdata
    have hnopre : pyStartsWith (pyDrop p CountryPrefix.data.length) CountryPrefix = false := by
      unfold pyStartsWith
      rw [hdrop]
      exact phone_tail_no_prefix hshape
    have hcomp1 : phoneComplement p = pyDrop p CountryPrefix.data.length := by
      unfold phoneComplement
      rw [hstart]
      rfl
    have hcomp2 : phoneComplement (pyDrop p CountryPrefix.data.length) = p := by
      unfold phoneComplement
      rw [hnopre]
      show CountryPrefix ++ pyDrop p CountryPrefix.data.length = p
      apply String.ext
      rw [String.data_append, hdrop, ← ht]
    constructor
    · simp only [phoneNumberAdd, List.nil_append]
      rw [hcomp1, hcomp2]
      exact List.Perm.swap _ _ _
    · simp only [phoneNumberAdd, List.nil_append]
      rw [hcomp1, hcomp2]
      rfl

theorem c4_complement_forms_and_prefix_symmetry_witness :
    "+4712345678" ∈ phoneNumberAdd [] "+4712345678" ∧
    (phoneNumberAdd [] "+4712345678").Perm
      (phoneNumberAdd [] (phoneComplement "+4712345678")) := by
  have h := c4_complement_forms_and_prefix_symmetry "+4712345678" (by decide)
  exact ⟨(h.1 []).1, (h.2 (by decide)).1⟩

theorem flatArgs_length (fs : List FilterInst) :
    (flatArgs fs).length = (fs.map fun f => f.args.length).sum := by
  simp only [flatArgs, List.length_flatten, List.map_map]
  rfl

theorem countQ_composedQuery (cs : List String) :
    countQ (composedQuery cs) = (cs.map countQ).sum := by
  unfold composedQuery
  rw [countQ_append, countQ_append, countQ_pyJoin "" rfl]
  have h0 : countQ baseQueryPrefix = 0 := by decide
  have h1 : countQ baseQuerySuffix = 0 := by decide
  rw [h0, h1, List.map_map]
  have h2 : cs.map (countQ ∘ fun f => " AND " ++ f) = cs.map countQ :=
    List.map_congr_left fun c _ => by
      show countQ (" AND " ++ c) = countQ c
      rw [countQ_append]
      have h3 : countQ " AND " = 0 := by decide
      omega
  rw [h2]
  omega

theorem clauses_spec (fs : List FilterInst) (h : ∀ f ∈ fs, Accumulated f) :
    ∃ cs, clausesOf fs = some cs ∧
      (∀ n, ((cs.take n).map countQ).sum =
        ((fs.take n).map fun f => f.args.length).sum) ∧
      (cs.map countQ).sum = (fs.map fun f => f.args.length).sum := by
  induction fs with
  | nil => exact ⟨[], rfl, fun n => by simp, by simp⟩
  | cons f fs ih =>
    rcases accumulated_sql_alignment f (h f (List.mem_cons_self f fs)) with ⟨q, hq, hcq⟩
    rcases ih (fun g hg => h g (List.mem_cons_of_mem f hg)) with ⟨cs, hcs, hpre, htot⟩
    refine ⟨q :: cs, ?_, ?_, ?_⟩
    · unfold clausesOf at hcs ⊢
      rw [List.mapM_cons, hq, hcs]
      rfl
    · intro n
      cases n with
      | zero => simp
      | succ n =>
        simp only [List.take_succ_cons, List.map_cons, List.sum_cons, hcq, hpre n]
    · simp only [List.map_cons, List.sum_cons, hcq, htot]

/-- **C1**: for every sequence of accumulated filters (any iteration
order of the `filters` dictionary), every filter's `sql()` succeeds, and
the flattened parameter list is aligned with the placeholders: for every
prefix of the iteration the number of `?` placeholders contributed so
far equals the number of parameters contributed so far, so the k-th
bound parameter corresponds to the k-th `?` of the composed query
(whose fixed parts contain no placeholder). -/
theorem c1_parameter_placeholder_alignment (fs : List FilterInst)
    (h : ∀ f ∈ fs, Accumulated f) :
    ∃ cs, clausesOf fs = some cs ∧
      (∀ n, ((cs.take n).map countQ).sum = (flatArgs (fs.take n)).length) ∧
      countQ (composedQuery cs) = (flatArgs fs).length := by
  rcases clauses_spec fs h with ⟨cs, hcs, hpre, htot⟩
  refine ⟨cs, hcs, ?_, ?_⟩
  · intro n
    rw [flatArgs_length]
    exact hpre n
  · rw [countQ_composedQuery, flatArgs_length]
    exact htot

theorem c1_parameter_placeholder_alignment_witness :
    ∃ cs,
      clausesOf [FilterInst.eventType ["sms"],
        FilterInst.phoneNumber ["12345678", "+4712345678"]] = some cs ∧
      (∀ n, ((cs.take n).map countQ).sum =
        (flatArgs ([FilterInst.eventType ["sms"],
          FilterInst.phoneNumber ["12345678", "+4712345678"]].take n)).length) ∧
      countQ (composedQuery cs) =
        (flatArgs [FilterInst.eventType ["sms"],
          FilterInst.phoneNumber ["12345678", "+4712345678"]]).length := by
  apply c1_parameter_placeholder_alignment
  intro f hf
  rcases List.mem_cons.1 hf with rfl | hf
  · exact (⟨["sms"], by decide, by decide⟩ :
      Accumulated (FilterInst.eventType ["sms"]))
  rcases List.mem_cons.1 hf with rfl | hf
  · exact (⟨["12345678"], by decide, by decide⟩ :
      Accumulated (FilterInst.phoneNumber ["12345678", "+4712345678"]))
  · exact absurd hf (List.not_mem_nil f)

/-- **C2**: every token is routed to the first variant (in the fixed
order event-kind, direction, phone-number, name) whose pattern matches;
the token's routed variant always matches it, no earlier variant does,
the name variant matches any token (so no token falls through
unclassified), and on success `classify1` accumulates the token into
exactly the routed variant's single instance, leaving the other three
variants' instances untouched. -/
theorem c2_first_match_classification (st : Filters) (arg : String) :
    (route arg).recognize arg = true ∧
    (route arg = .direction → argReEventType arg = false) ∧
    (route arg = .phoneNumber →
      argReEventType arg = false ∧ argReDirection arg = false) ∧
    (route arg = .name →
      argReEventType arg = false ∧ argReDirection arg = false ∧
        argRePhoneNumber arg = false) ∧
    argReName arg = true ∧
    (∀ st', classify1 st arg = some st' →
      (∃ g, addOf (route arg) ((fieldOf st (route arg)).getD []) arg = some g ∧
        fieldOf st' (route arg) = some g) ∧
      ∀ v, v ≠ route arg → fieldOf st' v = fieldOf st v) := by
  cases hb1 : argReEventType arg with
  | true =>
    have hroute : route arg = .eventType := by simp [route, hb1]
    rw [hroute]
    refine ⟨hb1, by simp, by simp, by simp, rfl, ?_⟩
    intro st' h'
    simp only [classify1, hb1, if_true] at h'
    rcases Option.map_eq_some'.1 h' with ⟨g, hg, rfl⟩
    refine ⟨⟨g, hg, rfl⟩, ?_⟩
    intro v hv
    cases v with
    | eventType => exact absurd rfl hv
    | direction => rfl
    | phoneNumber => rfl
    | name => rfl
  | false =>
    cases hb2 : argReDirection arg with
    | true =>
      have hroute : route arg = .direction := by simp [route, hb1, hb2]
      rw [hroute]
      refine ⟨hb2, fun _ => rfl, by simp, by simp, rfl, ?_⟩
      intro st' h'
      simp only [classify1, hb1, hb2, Bool.false_eq_true, if_false, if_true] at h'
      rcases Option.map_eq_some'.1 h' with ⟨g, hg, rfl⟩
      refine ⟨⟨g, hg, rfl⟩, ?_⟩
      intro v hv
      cases v with
      | eventType => rfl
      | direction => exact absurd rfl hv
      | phoneNumber => rfl
      | name => rfl
    | false =>
      cases hb3 : argRePhoneNumber arg with
      | true =>
        have hroute : route arg = .phoneNumber := by simp [route, hb1, hb2, hb3]
        rw [hroute]
        refine ⟨hb3, by simp, fun _ => ⟨rfl, rfl⟩, by simp, rfl, ?_⟩
        intro st' h'
        simp only [classify1, hb1, hb2, hb3, Bool.false_eq_true, if_false,
          if_true, Option.some.injEq] at h'
        subst h'
        refine ⟨⟨phoneNumberAdd (st.phoneNumber.getD []) arg, rfl, rfl⟩, ?_⟩
        intro v hv
        cases v with
        | eventType => rfl
        | direction => rfl
        | phoneNumber => exact absurd rfl hv
        | name => rfl
      | false =>
        have hroute : route arg = .name := by simp [route, hb1, hb2, hb3]
        rw [hroute]
        refine ⟨rfl, by simp, by simp, fun _ => ⟨rfl, rfl, rfl⟩, rfl, ?_⟩
        intro st' h'
        simp only [classify1, hb1, hb2, hb3, argReName, Bool.false_eq_true,
          if_false, if_true, Option.some.injEq] at h'
        subst h'
        refine ⟨⟨nameAdd (st.name.getD []) arg, rfl, rfl⟩, ?_⟩
        intro v hv
        cases v with
        | eventType => rfl
        | direction => rfl
        | phoneNumber => rfl
        | name => exact absurd rfl hv

theorem paletteAssign_length (seen : List String) :
    ∀ i, (paletteAssign i seen).length = seen.length := by
  induction seen with
  | nil => intro i; rfl
  | cons m rest ih => intro i; simp [paletteAssign, ih]

theorem paletteAssign_lookup_none {n : String} (seen : List String) :
    ∀ i, ((paletteAssign i seen).lookup n = none ↔ n ∉ seen) := by
  induction seen with
  | nil => intro i; simp [paletteAssign]
  | cons m rest ih =>
    intro i
    simp only [paletteAssign, List.lookup_cons]
    cases hm : (n == m) with
    | true =>
      have : n = m := eq_of_beq hm
      subst this
      simp
    | false =>
      have hne : n ≠ m := by
        intro h
        subst h
        simp at hm
      simp [ih (i + 1), hne]

theorem paletteAssign_concat (seen : List String) (n : String) :
    ∀ i, paletteAssign i (seen ++ [n]) =
      paletteAssign i seen ++
        [(n, numcolors.getD ((i + seen.length) % numcolors.length) "")] := by
  induction seen with
  | nil => intro i; simp [paletteAssign]
  | cons m rest ih =>
    intro i
    have h1 : paletteAssign i ((m :: rest) ++ [n]) =
        (m, numcolors.getD (i % numcolors.length) "") ::
          paletteAssign (i + 1) (rest ++ [n]) := rfl
    have h2 : paletteAssign i (m :: rest) =
        (m, numcolors.getD (i % numcolors.length) "") ::
          paletteAssign (i + 1) rest := rfl
    rw [h1, h2, ih (i + 1)]
    simp only [List.cons_append, List.length_cons]
    have h : i + 1 + rest.length = i + (rest.length + 1) := by omega
    rw [h]

theorem colorFold_spec_aux (rows : List String) :
    ∀ seen, rows.foldl colorStep (paletteAssign 0 seen) =
      paletteAssign 0 (rows.foldl setAdd seen) := by
  induction rows with
  | nil => intro seen; rfl
  | cons r rows ih =>
    intro seen
    simp only [List.foldl_cons]
    by_cases hmem : r ∈ seen
    · have hlook : (paletteAssign 0 seen).lookup r ≠ none := by
        intro hnone
        exact ((paletteAssign_lookup_none seen 0).1 hnone) hmem
      have hstep : colorStep (paletteAssign 0 seen) r = paletteAssign 0 seen := by
        unfold colorStep
        cases hl : (paletteAssign 0 seen).lookup r with
        | none => exact absurd hl hlook
        | some c => rfl
      have hset : setAdd seen r = seen := by
        simp [setAdd, hmem]
      rw [hstep, hset, ih seen]
    · have hlook : (paletteAssign 0 seen).lookup r = none :=
        (paletteAssign_lookup_none seen 0).2 hmem
      have hstep : colorStep (paletteAssign 0 seen) r =
          paletteAssign 0 seen ++
            [(r, numcolors.getD (seen.length % numcolors.length) "")] := by
        simp [colorStep, hlook, paletteAssign_length seen 0]
      have hset : setAdd seen r = seen ++ [r] := by
        simp [setAdd, hmem]
      have hconcat := paletteAssign_concat seen r 0
      rw [Nat.zero_add] at hconcat
      rw [hstep, hset, ← hconcat, ih (seen ++ [r])]

theorem lookup_colorStep_mono {m : List (String × String)} {n c : String}
    (h : m.lookup n = some c) (x : String) : (colorStep m x).lookup n = some c := by
  unfold colorStep
  cases hl : m.lookup x with
  | some d => exact h
  | none =>
    rw [List.lookup_append, h]
    rfl

theorem lookup_foldl_colorStep_mono (more : List String) :
    ∀ m n c, m.lookup n = some c → (more.foldl colorStep m).lookup n = some c := by
  induction more with
  | nil => intro m n c h; exact h
  | cons x more ih =>
    intro m n c h
    simp only [List.foldl_cons]
    exact ih _ _ _ (lookup_colorStep_mono h x)

/-- **C8**: within one invocation colour assignment is deterministic and
stable: after processing any row sequence the colour table maps exactly
the distinct remote identifiers, in first-seen row order, the i-th
distinct identifier (0-based) to palette colour `i mod 5`; repeated rows
do not advance the palette position (the table is keyed by distinct
identifiers only), and once an identifier has a colour, processing
further rows never changes it. -/
theorem c8_color_assignment_stable (rows : List String) :
    colorFold rows = paletteAssign 0 (rows.foldl setAdd []) ∧
    ∀ more n c, (colorFold rows).lookup n = some c →
      (colorFold (rows ++ more)).lookup n = some c := by
  constructor
  · exact colorFold_spec_aux rows []
  · intro more n c h
    unfold colorFold
    rw [List.foldl_append]
    exact lookup_foldl_colorStep_mono more _ n c h

theorem c8_color_assignment_stable_witness :
    (colorFold (["111", "222", "111"] ++ ["333"])).lookup "111" = some "red" := by
  apply (c8_color_assignment_stable ["111", "222", "111"]).2 ["333"] "111" "red"
  decide

theorem c2_first_match_classification_witness :
    ∃ g, addOf (route "sms") ((fieldOf initFilters (route "sms")).getD []) "sms" = some g ∧
      fieldOf (⟨some ["sms"], none, none, none⟩ : Filters) (route "sms") = some g :=
  ((c2_first_match_classification initFilters "sms").2.2.2.2.2
    ⟨some ["sms"], none, none, none⟩ (by decide)).1


/-- **C10**: a keyword followed by a single trailing newline (here
`"sms\n"`, likewise `"in\n"`) passes the event-kind (resp. direction)
filter's recognition pattern — Python's `$` also matches just before a
trailing newline — yet fails the strict membership assertion inside that
filter's `add`, so recognition does not guarantee accumulation, and the
assertion-failure branch is reachable from the token interface. -/
theorem c10_newline_token_passes_recognition_but_fails_add :
    argReEventType "sms\n" = true ∧ eventTypeAdd [] "sms\n" = none ∧
    argReDirection "in\n" = true ∧ directionAdd [] "in\n" = none ∧
    classify ["sms\n"] = none ∧ classify ["in\n"] = none := by
  decide

/-- **C9**: the empty token is recognised by the catch-all name filter
(and by no earlier variant), which stores the empty term and renders the
disjunct `Remotes.remote_name LIKE ?` with bound parameter `"%%"`; the
pattern `%%` matches every non-NULL resolved remote name and no NULL
one. -/
theorem c9_empty_token_matches_catch_all :
    route "" = Variant.name ∧ argReName "" = true ∧
    classify [""] = some ⟨none, none, none, some [""]⟩ ∧
    nameSql [""] = some "(Remotes.remote_name LIKE ?)" ∧
    nameArgs [""] = ["%%"] ∧
    (∀ s : String, likeMatch "%%" (some s) = true) ∧
    likeMatch "%%" none = false := by
  refine ⟨by decide, rfl, by decide, by decide, by decide, ?_, rfl⟩
  intro s
  simpa [likeMatch] using likeChars_double_percent s.data

/-- **C7**: with zero active filters (empty token list) no filter
instance exists, the composed query adds no `AND` clause to the base
query (it is exactly base prefix ++ base suffix, with no placeholder),
and the bound-parameter list is empty. -/
theorem c7_zero_filters_unfiltered_query :
    classify [] = some initFilters ∧
    activeFilters initFilters = [] ∧
    clausesOf (activeFilters initFilters) = some [] ∧
    flatArgs (activeFilters initFilters) = [] ∧
    composedQuery [] = baseQueryPrefix ++ baseQuerySuffix ∧
    countQ (composedQuery []) = 0 := by
  refine ⟨rfl, rfl, rfl, rfl, ?_, by decide⟩
  show baseQueryPrefix ++ pyJoin "" [] ++ baseQuerySuffix = _
  rw [show pyJoin "" [] = "" from rfl, String.append_empty]

/-- **C5** (counterexample): a voice-call row with non-empty free-text
content is *not* rendered — `renderContent` yields no output for it (the
`assert not text` fires), contradicting the claim that the row is still
rendered with a warning marker and the invocation continues. -/
theorem c5_counterexample_voice_call_row_not_rendered :
    (renderContent "RTCOM_EL_EVENTTYPE_CALL" (some "hello")).isSome = false := by
  decide

/-- **C5** (amended): when a voice-call row carries non-empty (truthy)
free-text content, the renderer's consistency `assert` fires: the row is
not rendered and the invocation aborts (`renderContent` returns `none`),
rather than continuing with a warning marker. -/
theorem c5_voice_call_content_aborts :
    ∀ text : Option String, textTruthy text = true →
      renderContent "RTCOM_EL_EVENTTYPE_CALL" text = none := by
  intro t ht
  simp [renderContent, ht]

theorem c5_voice_call_content_aborts_witness :
    textTruthy (some "corrupt") = true ∧
    renderContent "RTCOM_EL_EVENTTYPE_CALL" (some "corrupt") = none :=
  ⟨by decide, c5_voice_call_content_aborts (some "corrupt") (by decide)⟩

theorem eventTypeAdd_some_eq {g g' : List String} {a : String}
    (h : eventTypeAdd g a = some g') : g' = setAdd g (eventNorm a) := by
  rw [eventTypeAdd_eq] at h
  split at h
  · exact (Option.some_inj.1 h).symm
  · exact absurd h (by simp)

theorem directionAdd_some_eq {g g' : List String} {a : String}
    (h : directionAdd g a = some g') : g' = setAdd g (dirNorm a) := by
  rw [directionAdd_eq] at h
  split at h
  · exact (Option.some_inj.1 h).symm
  · exact absurd h (by simp)

theorem fieldOf_initFilters (v : Variant) : fieldOf initFilters v = none := by
  cases v <;> rfl

/-- A successful classification step updates exactly the routed
variant's instance, by that variant's (total) state transformer. -/
theorem classify1_some_spec {st st' : Filters} {a : String}
    (h : classify1 st a = some st') :
    fieldOf st' (route a) =
      some (fAdd (route a) ((fieldOf st (route a)).getD []) a) ∧
    ∀ v, v ≠ route a → fieldOf st' v = fieldOf st v := by
  cases hb1 : argReEventType a with
  | true =>
    have hroute : route a = .eventType := by simp [route, hb1]
    rw [hroute]
    simp only [classify1, hb1, if_true] at h
    rcases Option.map_eq_some'.1 h with ⟨g, hg, rfl⟩
    rw [eventTypeAdd_some_eq hg]
    refine ⟨rfl, ?_⟩
    intro v hv
    cases v with
    | eventType => exact absurd rfl hv
    | direction => rfl
    | phoneNumber => rfl
    | name => rfl
  | false =>
    cases hb2 : argReDirection a with
    | true =>
      have hroute : route a = .direction := by simp [route, hb1, hb2]
      rw [hroute]
      simp only [classify1, hb1, hb2, Bool.false_eq_true, if_false, if_true] at h
      rcases Option.map_eq_some'.1 h with ⟨g, hg, rfl⟩
      rw [directionAdd_some_eq hg]
      refine ⟨rfl, ?_⟩
      intro v hv
      cases v with
      | eventType => rfl
      | direction => exact absurd rfl hv
      | phoneNumber => rfl
      | name => rfl
    | false =>
      cases hb3 : argRePhoneNumber a with
      | true =>
        have hroute : route a = .phoneNumber := by simp [route, hb1, hb2, hb3]
        rw [hroute]
        simp only [classify1, hb1, hb2, hb3, Bool.false_eq_true, if_false,
          if_true, Option.some.injEq] at h
        subst h
        refine ⟨rfl, ?_⟩
        intro v hv
        cases v with
        | eventType => rfl
        | direction => rfl
        | phoneNumber => exact absurd rfl hv
        | name => rfl
      | false =>
        have hroute : route a = .name := by simp [route, hb1, hb2, hb3]
        rw [hroute]
        simp only [classify1, hb1, hb2, hb3, argReName, Bool.false_eq_true,
          if_false, if_true, Option.some.injEq] at h
        subst h
        refine ⟨rfl, ?_⟩
        intro v hv
        cases v with
        | eventType => rfl
        | direction => rfl
        | phoneNumber => rfl
        | name => exact absurd rfl hv

theorem eventTypeAdd_none_iff_not_ok {a : String} (g : List String) :
    (eventTypeAdd g a = none) ↔ (eventTypeAdd [] a).isSome = false := by
  rw [eventTypeAdd_eq, eventTypeAdd_eq]
  cases hc : (eventNorm a == "call" || eventNorm a == "missed" ||
      eventNorm a == "sms") <;> simp

theorem directionAdd_none_iff_not_ok {a : String} (g : List String) :
    (directionAdd g a = none) ↔ (directionAdd [] a).isSome = false := by
  rw [directionAdd_eq, directionAdd_eq]
  cases hc : (dirNorm a == "in" || dirNorm a == "out") <;> simp

/-- A classification step fails exactly when the routed variant's
`add` rejects the token — independently of the accumulated state. -/
theorem classify1_none_iff {st : Filters} {a : String} :
    classify1 st a = none ↔ addOk a = false := by
  cases hb1 : argReEventType a with
  | true =>
    have hroute : route a = .eventType := by simp [route, hb1]
    simp only [classify1, hb1, if_true, Option.map_eq_none', addOk, hroute]
    exact eventTypeAdd_none_iff_not_ok _
  | false =>
    cases hb2 : argReDirection a with
    | true =>
      have hroute : route a = .direction := by simp [route, hb1, hb2]
      simp only [classify1, hb1, hb2, Bool.false_eq_true, if_false, if_true,
        Option.map_eq_none', addOk, hroute]
      exact directionAdd_none_iff_not_ok _
    | false =>
      cases hb3 : argRePhoneNumber a with
      | true =>
        have hroute : route a = .phoneNumber := by simp [route, hb1, hb2, hb3]
        simp [classify1, hb1, hb2, hb3, addOk, hroute]
      | false =>
        have hroute : route a = .name := by simp [route, hb1, hb2, hb3]
        simp [classify1, hb1, hb2, hb3, argReName, addOk, hroute]

theorem classify1_isSome_of_ok {st : Filters} {a : String}
    (h : addOk a = true) : ∃ st', classify1 st a = some st' := by
  cases hc : classify1 st a with
  | some st' => exact ⟨st', rfl⟩
  | none =>
    rw [classify1_none_iff.1 hc] at h
    exact absurd h (by simp)

theorem classifyFrom_some (toks : List String) :
    ∀ st, (∀ a ∈ toks, addOk a = true) →
      ∃ st', toks.foldlM classify1 st = some st' := by
  induction toks with
  | nil => intro st _; exact ⟨st, rfl⟩
  | cons a toks ih =>
    intro st hok
    rcases @classify1_isSome_of_ok st a (hok a (List.mem_cons_self a toks)) with
      ⟨st1, h1⟩
    rcases ih st1 (fun b hb => hok b (List.mem_cons_of_mem a hb)) with ⟨st', h'⟩
    refine ⟨st', ?_⟩
    rw [List.foldlM_cons, h1]
    exact h'

theorem classifyFrom_none (toks : List String) :
    ∀ st, (∃ a ∈ toks, addOk a = false) →
      toks.foldlM classify1 st = none := by
  induction toks with
  | nil =>
    intro st hex
    rcases hex with ⟨a, ha, _⟩
    exact absurd ha (List.not_mem_nil a)
  | cons a toks ih =>
    intro st hex
    rw [List.foldlM_cons]
    rcases hex with ⟨b, hb, hfalse⟩
    rcases List.mem_cons.1 hb with rfl | hb
    · rw [classify1_none_iff.2 hfalse]
      rfl
    · cases hca : classify1 st a with
      | none => rfl
      | some st2 => exact ih st2 ⟨b, hb, hfalse⟩

theorem tokensFor_cons_eq {a : String} {v : Variant} (h : route a = v)
    (toks : List String) :
    tokensFor v (a :: toks) = a :: tokensFor v toks := by
  simp [tokensFor, List.filter_cons, h]

theorem tokensFor_cons_ne {a : String} {v : Variant} (h : route a ≠ v)
    (toks : List String) :
    tokensFor v (a :: toks) = tokensFor v toks := by
  simp [tokensFor, List.filter_cons, h]

/-- Characterisation of a variant's instance after classification: it is
the fold of that variant's state transformer over exactly the tokens
routed to it. -/
theorem classify_fieldOf (v : Variant) (toks : List String) :
    ∀ st st', toks.foldlM classify1 st = some st' →
      fieldOf st' v = (tokensFor v toks).foldl
        (fun og a => some (fAdd v (og.getD []) a)) (fieldOf st v) := by
  induction toks with
  | nil =>
    intro st st' h
    cases h
    rfl
  | cons a toks ih =>
    intro st st' h
    simp only [List.foldlM_cons] at h
    rcases Option.bind_eq_some.1 h with ⟨st1, h1, hrest⟩
    rcases classify1_some_spec h1 with ⟨hset, hother⟩
    by_cases hv : v = route a
    · subst hv
      rw [tokensFor_cons_eq rfl toks, List.foldl_cons, ih st1 st' hrest, hset]
    · rw [tokensFor_cons_ne (fun hh => hv hh.symm) toks, ih st1 st' hrest,
        hother v hv]

theorem optFold_from_some (f : List String → String → List String)
    (l : List String) :
    ∀ g, l.foldl (fun og a => some (f (og.getD []) a)) (some g) =
      some (l.foldl f g) := by
  induction l with
  | nil => intro g; rfl
  | cons a l ih => intro g; exact ih (f g a)

theorem union_singleton_eq_insert (s : Finset String) (x : String) :
    s ∪ {x} = insert x s := by
  ext y
  simp [Finset.mem_union, Finset.mem_insert, or_comm]

theorem setAdd_toFinset (s : List String) (x : String) :
    (setAdd s x).toFinset = insert x s.toFinset := by
  unfold setAdd
  split
  · next h =>
    have hx : x ∈ s := List.mem_of_elem_eq_true h
    rw [Finset.insert_eq_self.2 (List.mem_toFinset.2 hx)]
  · next h =>
    rw [List.toFinset_append]
    simp [union_singleton_eq_insert]

theorem fAdd_toFinset (v : Variant) (g : List String) (a : String) :
    (fAdd v g a).toFinset = g.toFinset ∪ (tokenImage v a).toFinset := by
  cases v with
  | eventType =>
    show (setAdd g (eventNorm a)).toFinset = g.toFinset ∪ [eventNorm a].toFinset
    rw [setAdd_toFinset]
    simp [union_singleton_eq_insert]
  | direction =>
    show (setAdd g (dirNorm a)).toFinset = g.toFinset ∪ [dirNorm a].toFinset
    rw [setAdd_toFinset]
    simp [union_singleton_eq_insert]
  | phoneNumber =>
    show (g ++ [a, phoneComplement a]).toFinset =
      g.toFinset ∪ [a, phoneComplement a].toFinset
    rw [List.toFinset_append]
  | name =>
    show (setAdd g (pyLower a)).toFinset = g.toFinset ∪ [pyLower a].toFinset
    rw [setAdd_toFinset]
    simp [union_singleton_eq_insert]

theorem fAdd_fold_toFinset (v : Variant) (l : List String) :
    ∀ g, (l.foldl (fAdd v) g).toFinset =
      g.toFinset ∪ (l.flatMap (tokenImage v)).toFinset := by
  induction l with
  | nil => intro g; simp
  | cons a l ih =>
    intro g
    rw [List.foldl_cons, ih (fAdd v g a), fAdd_toFinset, List.flatMap_cons,
      List.toFinset_append, Finset.union_assoc]

theorem optFold_toFinset (v : Variant) (l : List String) :
    (l.foldl (fun og a => some (fAdd v (og.getD []) a))
        (none : Option (List String))).map List.toFinset =
      if l.isEmpty then none
      else some (l.flatMap (tokenImage v)).toFinset := by
  cases l with
  | nil => rfl
  | cons a l =>
    rw [List.foldl_cons, optFold_from_some]
    simp only [Option.map_some', List.isEmpty_cons, Bool.false_eq_true, if_false]
    congr 1
    rw [fAdd_fold_toFinset, List.flatMap_cons, List.toFinset_append]
    have h0 : fAdd v ((none : Option (List String)).getD []) a = fAdd v [] a := rfl
    rw [h0, fAdd_toFinset]
    simp

theorem perm_toFinset {l1 l2 : List String} (h : l1.Perm l2) :
    l1.toFinset = l2.toFinset := by
  apply Finset.ext
  intro x
  simp [List.mem_toFinset, h.mem_iff]

/-- **C6**: classification is order-independent: permuting the token
sequence yields the same classifier outcome up to predicate semantics —
the same set of instantiated variants, each with the same set of stored
disjunct values (storage order in the phone-number filter's
duplicate-tolerant list and in the set-like filters does not affect the
predicate's meaning), and the same abort behaviour. -/
theorem c6_classification_order_independent (t1 t2 : List String)
    (hperm : t1.Perm t2) :
    (classify t1).map Filters.sem = (classify t2).map Filters.sem := by
  by_cases hok : ∀ a ∈ t1, addOk a = true
  · have hok2 : ∀ a ∈ t2, addOk a = true := fun a ha => hok a (hperm.mem_iff.2 ha)
    rcases classifyFrom_some t1 initFilters hok with ⟨s1, h1⟩
    rcases classifyFrom_some t2 initFilters hok2 with ⟨s2, h2⟩
    have e1 : classify t1 = some s1 := h1
    have e2 : classify t2 = some s2 := h2
    rw [e1, e2]
    simp only [Option.map_some']
    have hfield : ∀ v, (fieldOf s1 v).map List.toFinset =
        (fieldOf s2 v).map List.toFinset := by
      intro v
      have hc1 := classify_fieldOf v t1 initFilters s1 h1
      have hc2 := classify_fieldOf v t2 initFilters s2 h2
      rw [fieldOf_initFilters] at hc1 hc2
      rw [hc1, hc2, optFold_toFinset, optFold_toFinset]
      have hl : (tokensFor v t1).Perm (tokensFor v t2) := hperm.filter _
      rcases eq_or_ne (tokensFor v t1) [] with h0 | h0
      · have h02 : tokensFor v t2 = [] := by
          rw [h0] at hl
          exact (hl.symm).eq_nil
        rw [h0, h02]
      · have h02 : tokensFor v t2 ≠ [] := by
          intro hh
          rw [hh] at hl
          exact h0 hl.eq_nil
        have he1 : (tokensFor v t1).isEmpty = false := by
          simpa [List.isEmpty_iff] using h0
        have he2 : (tokensFor v t2).isEmpty = false := by
          simpa [List.isEmpty_iff] using h02
        rw [he1, he2]
        simp only [Bool.false_eq_true, if_false]
        congr 1
        exact perm_toFinset (List.Perm.flatMap_right (tokenImage v) hl)
    congr 1
    cases s1
    cases s2
    simp only [Filters.sem, FiltersSem.mk.injEq]
    exact ⟨hfield .eventType, hfield .direction, hfield .phoneNumber,
      hfield .name⟩
  · have hex : ∃ a ∈ t1, addOk a = false := by
      push_neg at hok
      rcases hok with ⟨a, ha, hfa⟩
      exact ⟨a, ha, by simpa using hfa⟩
    have hex2 : ∃ a ∈ t2, addOk a = false := by
      rcases hex with ⟨a, ha, hfa⟩
      exact ⟨a, hperm.mem_iff.1 ha, hfa⟩
    rw [show classify t1 = none from classifyFrom_none t1 initFilters hex,
      show classify t2 = none from classifyFrom_none t2 initFilters hex2]

theorem c6_classification_order_independent_witness :
    (classify ["out", "123"]).map Filters.sem =
      (classify ["123", "out"]).map Filters.sem :=
  c6_classification_order_independent ["out", "123"] ["123", "out"]
    (List.Perm.swap "123" "out" [])

end SmsQuery
